import Mathlib

/-!
Verification development for the real-time messaging core of the
`bang-go/micro` repository: the `wsx` WebSocket Connection and Hub, the
`ws` client, and the `pkg/pool` worker pool.  Each Go entity is embedded
shallowly: channels become explicit queues, the unprioritized Go `select`
becomes a choice parameter ranging over the ready cases, goroutine
interleavings become explicit operation traces, and metrics counters
become `Nat` fields of the state.
-/

namespace Micro

/-! ## Worker pool (`pkg/pool/pool.go`)

State of one `pool` value.  `closed` is the `closed int32` flag (1 = true),
`queue` is the contents of the buffered channel `taskC` (tasks are opaque
`Nat` identifiers), `queueSize` its capacity, `nonBlocking` the
`options.nonBlocking` flag and `capacity` the worker count `cap`. -/

structure PoolState where
  capacity : Nat
  queueSize : Nat
  nonBlocking : Bool
  closed : Bool
  queue : List Nat
  deriving Repr, DecidableEq

/-- Result of `pool.Submit`: `nil`, `ErrPoolClosed` or `ErrPoolFull`;
`wouldBlock` stands for a blocking-mode caller suspended on a full
`taskC` (no error has been returned yet). -/
inductive SubmitRes where
  | ok
  | errClosed
  | errFull
  | wouldBlock
  deriving Repr, DecidableEq

/-- `pool.Submit` from `pool.go`: the closed flag is tested first and wins;
otherwise non-blocking mode uses `select`+`default` on `taskC`, blocking
mode sends unconditionally (modelled as suspension when the buffer is
full). -/
def poolSubmit (p : PoolState) (task : Nat) : SubmitRes × PoolState :=
  if p.closed then
    (SubmitRes.errClosed, p)
  else if p.nonBlocking then
    if p.queue.length < p.queueSize then
      (SubmitRes.ok, { p with queue := p.queue ++ [task] })
    else
      (SubmitRes.errFull, p)
  else
    if p.queue.length < p.queueSize then
      (SubmitRes.ok, { p with queue := p.queue ++ [task] })
    else
      (SubmitRes.wouldBlock, p)

/-- `pool.Release` from `pool.go`: CAS the closed flag (idempotent), close
`taskC` and wait for the workers, which drain every queued task before
exiting (`for task := range p.taskC`). -/
def poolRelease (p : PoolState) : PoolState :=
  if p.closed then p else { p with closed := true, queue := [] }

/-- One worker pulling one task off `taskC`. -/
def poolWorkerStep (p : PoolState) : PoolState :=
  { p with queue := p.queue.tail }

/-- Operations a pool user or worker can perform after construction. -/
inductive PoolOp where
  | submit (task : Nat)
  | release
  | workerStep
  deriving Repr, DecidableEq

/-- Run a trace of pool operations, recording the result of every
`Submit`. -/
def poolRun (p : PoolState) : List PoolOp → PoolState × List SubmitRes
  | [] => (p, [])
  | PoolOp.submit t :: ops =>
      let r := poolSubmit p t
      let rest := poolRun r.2 ops
      (rest.1, r.1 :: rest.2)
  | PoolOp.release :: ops => poolRun (poolRelease p) ops
  | PoolOp.workerStep :: ops => poolRun (poolWorkerStep p) ops

theorem poolSubmit_closed (p : PoolState) (t : Nat) (h : p.closed = true) :
    poolSubmit p t = (SubmitRes.errClosed, p) := by
  simp [poolSubmit, h]

theorem poolRelease_closed (p : PoolState) : (poolRelease p).closed = true := by
  unfold poolRelease
  split <;> simp_all

/-- No operation ever resets the closed flag. -/
theorem poolRun_closed (ops : List PoolOp) :
    ∀ p : PoolState, p.closed = true → (poolRun p ops).1.closed = true := by
  induction ops with
  | nil => intro p h; simpa [poolRun] using h
  | cons op rest ih =>
      intro p h
      cases op with
      | submit t => simpa [poolRun, poolSubmit_closed p t h] using ih p h
      | release =>
          simp only [poolRun]
          exact ih _ (poolRelease_closed p)
      | workerStep =>
          simp only [poolRun]
          exact ih _ (by simpa [poolWorkerStep] using h)

/-- Every submit result recorded on a run that starts closed is
`errClosed`. -/
theorem poolRun_submits_errClosed (ops : List PoolOp) :
    ∀ p : PoolState, p.closed = true →
      ∀ r ∈ (poolRun p ops).2, r = SubmitRes.errClosed := by
  induction ops with
  | nil => intro p _ r hr; simp [poolRun] at hr
  | cons op rest ih =>
      intro p h r hr
      cases op with
      | submit t =>
          simp only [poolRun, poolSubmit_closed p t h, List.mem_cons] at hr
          rcases hr with hr | hr
          · exact hr
          · exact ih p h r hr
      | release =>
          simp only [poolRun] at hr
          exact ih _ (poolRelease_closed p) r hr
      | workerStep =>
          simp only [poolRun] at hr
          exact ih _ (by simpa [poolWorkerStep] using h) r hr

/-! ## Connection (`wsx` connect file)

One `connectEntity`: `closed` is true once `close(c.closed)` has executed,
`sockClosed` once `c.conn.Close(StatusNormalClosure, "closed")` has,
`queue` is the contents of the buffered channel `sendChan` with capacity
`bufSize` (default 256), `writerExited` records that `writeLoop` returned,
`active` is this connection's contribution to the `connActive` gauge, and
`sentSuccess`/`sentDropped`/`sentError` are the `msgSent` counter by
label. -/

inductive MsgType where
  | text
  | binary
  deriving Repr, DecidableEq

/-- The internal queue `message` struct. -/
structure Msg where
  typ : MsgType
  data : List Nat
  deriving Repr, DecidableEq

structure ConnState where
  closed : Bool
  sockClosed : Bool
  queue : List Msg
  bufSize : Nat
  writerExited : Bool
  active : Nat
  sentSuccess : Nat
  sentDropped : Nat
  sentError : Nat
  deriving Repr, DecidableEq

/-- `NewConnect`: fresh connection, empty send queue, `connActive.Inc()`. -/
def newConnect (bufSize : Nat) : ConnState :=
  { closed := false, sockClosed := false, queue := [], bufSize := bufSize
    writerExited := false, active := 1
    sentSuccess := 0, sentDropped := 0, sentError := 0 }

/-- The `close(c.closed)` statement inside the `once.Do` body of `Close`. -/
def connCloseChan (c : ConnState) : ConnState :=
  { c with closed := true }

/-- The `c.conn.Close(...)` statement inside the `once.Do` body of
`Close`. -/
def connCloseSock (c : ConnState) : ConnState :=
  { c with sockClosed := true }

/-- `connectEntity.Close`, run without interleaving: the `once.Do` body
executes both statements the first time and nothing afterwards. -/
def connClose (c : ConnState) : ConnState :=
  if c.closed then c else connCloseSock (connCloseChan c)

/-- The three cases of the `select` in `connectEntity.send`. -/
inductive SendBranch where
  | closedBr
  | enqueueBr
  | ctxBr
  deriving Repr, DecidableEq

inductive SendOutcome where
  | ok
  | errClosed
  | errCtx
  deriving Repr, DecidableEq

/-- Which cases of `send`'s `select` can proceed: `<-c.closed` once the
channel is closed, `c.sendChan <- msg` while the buffer has room, and
`<-ctx.Done()` once the caller's context has expired. -/
def sendReady (c : ConnState) (ctxDone : Bool) : SendBranch → Bool
  | SendBranch.closedBr => c.closed
  | SendBranch.enqueueBr => c.queue.length < c.bufSize
  | SendBranch.ctxBr => ctxDone

/-- `connectEntity.send`: Go's `select` chooses pseudo-randomly among the
ready cases, so the chosen branch is a parameter; `none` means the branch
cannot proceed (an execution never takes it). -/
def connSend (c : ConnState) (ctxDone : Bool) (m : Msg) :
    SendBranch → Option (SendOutcome × ConnState)
  | SendBranch.closedBr =>
      if c.closed then some (SendOutcome.errClosed, c) else none
  | SendBranch.enqueueBr =>
      if c.queue.length < c.bufSize then
        some (SendOutcome.ok, { c with queue := c.queue ++ [m] })
      else none
  | SendBranch.ctxBr =>
      if ctxDone then
        some (SendOutcome.errCtx, { c with sentDropped := c.sentDropped + 1 })
      else none

/-- `SendText` wraps the string's bytes in a text frame. -/
def connSendText (c : ConnState) (ctxDone : Bool) (s : List Nat) :
    SendBranch → Option (SendOutcome × ConnState) :=
  connSend c ctxDone { typ := MsgType.text, data := s }

/-- `SendBinary` wraps the bytes in a binary frame. -/
def connSendBinary (c : ConnState) (ctxDone : Bool) (d : List Nat) :
    SendBranch → Option (SendOutcome × ConnState) :=
  connSend c ctxDone { typ := MsgType.binary, data := d }

inductive JsonRes where
  | marshalErr (e : String)
  | sendRes (r : SendOutcome)
  deriving Repr, DecidableEq

/-- `connectEntity.SendJSON`: `json.Marshal` is an external library call,
so its outcome is a parameter; on a marshal error the method returns that
error before touching the queue, otherwise it sends the bytes as a text
frame. -/
def connSendJSON (c : ConnState) (ctxDone : Bool)
    (marshal : Except String (List Nat)) (br : SendBranch) :
    Option (JsonRes × ConnState) :=
  match marshal with
  | Except.error e => some (JsonRes.marshalErr e, c)
  | Except.ok data =>
      (connSend c ctxDone { typ := MsgType.text, data := data } br).map
        (fun r => (JsonRes.sendRes r.1, r.2))

/-- The three cases of the `select` in `connectEntity.writeLoop`. -/
inductive WriterBranch where
  | closedBr
  | msgBr
  | tickBr
  deriving Repr, DecidableEq

/-- What one iteration of `writeLoop` did. `wroteAttempt m success`
records that `c.conn.Write` was invoked on queued frame `m` and whether
the socket write succeeded. -/
inductive WriterEv where
  | exited
  | wroteAttempt (m : Msg) (success : Bool)
  | pinged (success : Bool)
  deriving Repr, DecidableEq

/-- Which cases of `writeLoop`'s `select` can proceed: `<-c.closed` once
closed, `msg := <-c.sendChan` while a frame is queued, `<-ticker.C` when
the heartbeat tick has fired. -/
def writerReady (c : ConnState) (tickFired : Bool) : WriterBranch → Bool
  | WriterBranch.closedBr => c.closed
  | WriterBranch.msgBr => !c.queue.isEmpty
  | WriterBranch.tickBr => tickFired

/-- One iteration of `connectEntity.writeLoop`. `ioErr` stands for an
external I/O failure of the socket write/ping; a write on an
already-closed socket always fails. On a write error the loop bumps
`msgSent{error}`, calls `c.Close()` and returns (the deferred
`connActive.Dec()` runs); on success it bumps `msgSent{success}` and
loops. -/
def connWriterStep (c : ConnState) (tickFired ioErr : Bool) :
    WriterBranch → Option (WriterEv × ConnState)
  | WriterBranch.closedBr =>
      if c.closed then
        some (WriterEv.exited, { c with writerExited := true, active := 0 })
      else none
  | WriterBranch.msgBr =>
      match c.queue with
      | [] => none
      | m :: rest =>
          if c.sockClosed || ioErr then
            let c' := connClose { c with queue := rest, sentError := c.sentError + 1 }
            some (WriterEv.wroteAttempt m false,
              { c' with writerExited := true, active := 0 })
          else
            some (WriterEv.wroteAttempt m true,
              { c with queue := rest, sentSuccess := c.sentSuccess + 1 })
  | WriterBranch.tickBr =>
      if tickFired then
        if c.sockClosed || ioErr then
          let c' := connClose c
          some (WriterEv.pinged false,
            { c' with writerExited := true, active := 0 })
        else
          some (WriterEv.pinged true, c)
      else none

/-! ## WebSocket client (`ws/client.go`) -/

/-- `clientEntity` state relevant to `Close`: whether `close(c.closed)`
has already run, and the current wrapped connection. -/
structure ClientState where
  closedChan : Bool
  conn : Option ConnState
  deriving Repr, DecidableEq

/-- `clientEntity.Close`: `close(c.closed)` with no `sync.Once` guard —
closing an already-closed channel is a Go runtime panic, modelled as an
error result. -/
def clientClose (st : ClientState) : Except String ClientState :=
  if st.closedChan then
    Except.error "close of closed channel"
  else
    Except.ok { st with closedChan := true, conn := st.conn.map connClose }

/-- Outcome of one dial attempt in `clientEntity.loop`; on success the
connection delivers `reads` messages and then fails a read. -/
inductive DialEv where
  | fail
  | ok (reads : Nat)
  deriving Repr, DecidableEq

/-- `clientEntity.loop` run against a schedule of dial outcomes, with the
client never closed and the context never cancelled.  Returns what was
sent on the `firstConnect` channel (`some false` = the first dial's
error, `some true` = nil, `none` = nothing yet) and how many dials were
performed.  A first-try failure sends the error and returns; a later
failure calls `handleError`, bumps the attempt counter, stops when it
exceeds `maxReconnectAttempts` (when ≥ 0), else sleeps and redials.  A
success resets the attempt counter, reads until the read error, sleeps
and redials. -/
def loopAux (maxRA : Int) (firstTry : Bool) (attempts : Nat) :
    List DialEv → Option Bool × Nat
  | [] => (none, 0)
  | DialEv.fail :: rest =>
      if firstTry then (some false, 1)
      else if 0 ≤ maxRA ∧ maxRA < (attempts + 1 : Int) then (none, 1)
      else (none, (loopAux maxRA false (attempts + 1) rest).2 + 1)
  | DialEv.ok _ :: rest =>
      ((if firstTry then some true else none),
        (loopAux maxRA false 0 rest).2 + 1)

/-- `clientEntity.Connect` spawns `loop` and blocks on `firstConnect`:
its result is the first value the loop sends there. -/
def clientConnect (maxRA : Int) (evs : List DialEv) : Option Bool × Nat :=
  loopAux maxRA true 0 evs

/-! ## Hub (`wsx` hub file)

Connections are heap references: the system carries a store
`conns : ConnId → HConn` of every connection object, and the hub's
`connections`, `userIndex` and `rooms` maps hold `ConnId` keys.  Go map
semantics: a `map[Connect]struct{}` becomes a duplicate-free `List
ConnId`, a missing key and a `nil` map both read as `[]` (the code never
stores an empty non-nil set: `Join` creates entries, `Leave` and
`Unregister` delete entries that become empty). -/

abbrev ConnId := Nat

/-- The hub-relevant part of one connection object: its mutable `id` and
its set of joined rooms. -/
structure HConn where
  id : String
  rooms : List String
  deriving Repr, DecidableEq

/-- Modelled from the spec: the Connection's "set of joined rooms" is
"mutated only through the Hub".  The method `addRoom` called by
`hubEntity.Join` is not under `src/`; it inserts the room into the
connection's set. -/
def HConn.addRoom (c : HConn) (r : String) : HConn :=
  if r ∈ c.rooms then c else { c with rooms := c.rooms ++ [r] }

/-- Modelled from the spec: the method `removeRoom` called by
`hubEntity.Leave` is not under `src/`; it removes the room from the
connection's set. -/
def HConn.removeRoom (c : HConn) (r : String) : HConn :=
  { c with rooms := c.rooms.filter (· ≠ r) }

/-- Point update of a string-keyed map. -/
def updMap (m : String → List ConnId) (k : String) (v : List ConnId) :
    String → List ConnId :=
  fun s => if s = k then v else m s

/-- Point update of the connection store. -/
def updStore (m : ConnId → HConn) (k : ConnId) (v : HConn) : ConnId → HConn :=
  fun c => if c = k then v else m c

/-- Go set-map insert: `m[c] = struct{}{}`. -/
def insertId (c : ConnId) (l : List ConnId) : List ConnId :=
  if c ∈ l then l else c :: l

/-- The whole system: the connection store plus one `hubEntity` and its
metrics counters. -/
structure HubSys where
  conns : ConnId → HConn
  connections : List ConnId
  userIndex : String → List ConnId
  roomsMap : String → List ConnId
  maxRooms : Nat
  ctrLimitMaxRooms : Nat
  ctrJoin : Nat
  ctrLeave : Nat

/-- `NewHub` (with `maxRoomsPerConnect := mr`) over a heap of fresh
connection objects. -/
def hubInit (mr : Nat) : HubSys :=
  { conns := fun _ => { id := "", rooms := [] }
    connections := [], userIndex := fun _ => [], roomsMap := fun _ => []
    maxRooms := mr, ctrLimitMaxRooms := 0, ctrJoin := 0, ctrLeave := 0 }

/-- `connectEntity.SetID`: mutates the connection object only; no hub
index is touched. -/
def hubSetID (sys : HubSys) (c : ConnId) (newId : String) : HubSys :=
  { sys with conns := updStore sys.conns c { sys.conns c with id := newId } }

/-- `hubEntity.Register`: insert into `connections`; index under
`userIndex[uid]` only when `uid := c.ID()` is non-empty. -/
def hubRegister (sys : HubSys) (c : ConnId) : HubSys :=
  let sys' := { sys with connections := insertId c sys.connections }
  let uid := (sys'.conns c).id
  if uid = "" then sys'
  else { sys' with userIndex := updMap sys'.userIndex uid (insertId c (sys'.userIndex uid)) }

/-- The loop `for _, room := range rooms { delete(h.rooms[room], c) ... }`
in `hubEntity.Unregister`. -/
def purgeRooms (c : ConnId) (rooms : List String) (m : String → List ConnId) :
    String → List ConnId :=
  rooms.foldl (fun acc room => updMap acc room ((acc room).filter (· ≠ c))) m

/-- `hubEntity.Unregister`: only acts on registered connections; removes
`c` from `connections`, from `userIndex[c.ID()]` when the id is
non-empty, and from `rooms[room]` for every `room ∈ c.Rooms()`.  The
connection's own `rooms` set is NOT cleared (the `c.removeRoom(room)`
call is commented out in the source). -/
def hubUnregister (sys : HubSys) (c : ConnId) : HubSys :=
  if c ∈ sys.connections then
    let uid := (sys.conns c).id
    let s1 := { sys with connections := sys.connections.filter (· ≠ c) }
    let s2 :=
      if uid = "" then s1
      else { s1 with userIndex := updMap s1.userIndex uid ((s1.userIndex uid).filter (· ≠ c)) }
    { s2 with roomsMap := purgeRooms c (sys.conns c).rooms s2.roomsMap }
  else sys

/-- The body of `hubEntity.Join`'s loop for one connection `c` of the
user: skip if already in the room; skip and count a `max_rooms`
limit-exceeded event if the connection is at `maxRoomsPerConnect`;
otherwise add `c` to `rooms[room]`, add the room to the connection and
count a join. -/
def joinOne (mr : Nat) (room : String) (sys : HubSys) (c : ConnId) : HubSys :=
  if room ∈ (sys.conns c).rooms then sys
  else if mr ≤ (sys.conns c).rooms.length then
    { sys with ctrLimitMaxRooms := sys.ctrLimitMaxRooms + 1 }
  else
    { sys with
      roomsMap := updMap sys.roomsMap room (insertId c (sys.roomsMap room))
      conns := updStore sys.conns c ((sys.conns c).addRoom room)
      ctrJoin := sys.ctrJoin + 1 }

/-- `hubEntity.Join`: no-op when the user has no local connections, else
the per-connection body over `userIndex[userID]`. -/
def hubJoin (sys : HubSys) (u room : String) : HubSys :=
  let cs := sys.userIndex u
  if cs.isEmpty then sys
  else cs.foldl (joinOne sys.maxRooms room) sys

/-- The body of `hubEntity.Leave`'s loop for one connection of the
user. -/
def leaveOne (room : String) (sys : HubSys) (c : ConnId) : HubSys :=
  if c ∈ sys.roomsMap room then
    { sys with
      roomsMap := updMap sys.roomsMap room ((sys.roomsMap room).filter (· ≠ c))
      conns := updStore sys.conns c ((sys.conns c).removeRoom room)
      ctrLeave := sys.ctrLeave + 1 }
  else sys

/-- `hubEntity.Leave`: no-op when the user has no local connections or
the room has no entry, else the per-connection body; an entry that
becomes empty is deleted (identity in the `[] ≡ absent` model). -/
def hubLeave (sys : HubSys) (u room : String) : HubSys :=
  let cs := sys.userIndex u
  if cs.isEmpty then sys
  else if (sys.roomsMap room).isEmpty then sys
  else cs.foldl (leaveOne room) sys

/-- The hub-and-connection operations a caller can interleave. -/
inductive HubOp where
  | register (c : ConnId)
  | unregister (c : ConnId)
  | setID (c : ConnId) (id : String)
  | join (u room : String)
  | leave (u room : String)
  deriving Repr, DecidableEq

def hubApply (sys : HubSys) : HubOp → HubSys
  | HubOp.register c => hubRegister sys c
  | HubOp.unregister c => hubUnregister sys c
  | HubOp.setID c i => hubSetID sys c i
  | HubOp.join u room => hubJoin sys u room
  | HubOp.leave u room => hubLeave sys u room

def hubRun (sys : HubSys) : List HubOp → HubSys
  | [] => sys
  | op :: ops => hubRun (hubApply sys op) ops

/-- Discipline under which the stale-index edge cases cannot arise:
`SetID` is only called on connections not currently registered (callers
SetID first), and a `Register` introduces either an already-registered
connection or one that has never joined a room. -/
def goodOps (sys : HubSys) : List HubOp → Bool
  | [] => true
  | op :: ops =>
      (match op with
       | HubOp.setID c _ => decide (c ∉ sys.connections)
       | HubOp.register c => decide (c ∈ sys.connections) || (sys.conns c).rooms.isEmpty
       | _ => true) && goodOps (hubApply sys op) ops

/-! ## Hub envelope operations (`wsx` hub file, publish path)

`Broadcast`, `SendTo`, `Kick` and `BroadcastToRoom` build a `hubMessage`
envelope and either publish it to the broker (when one is configured,
discarding the publish error) or fall back to the local fan-out.
JSON marshalling of the envelope is modelled as the envelope value
itself; `injectTrace` is a no-op in the source. -/

inductive HubMsg where
  | broadcast (payload : List Nat)
  | unicast (target : String) (payload : List Nat)
  | kick (target : String)
  | roomCast (target : String) (payload : List Nat)
  deriving Repr, DecidableEq

/-- Externally visible actions of one hub operation, in order. -/
inductive Effect where
  | publish (m : HubMsg)
  | sendBinaryTo (c : ConnId) (payload : List Nat)
  | closeConn (c : ConnId)
  deriving Repr, DecidableEq

/-- Is this effect a delivery to a local connection? -/
def Effect.isLocalDelivery : Effect → Bool
  | Effect.publish _ => false
  | Effect.sendBinaryTo _ _ => true
  | Effect.closeConn _ => true

/-- `broadcastLocal`: snapshot of `connections` under the read lock, then
`batchSend` (a 5 ms-budget `SendBinary` per target). -/
def broadcastLocalEffects (sys : HubSys) (msg : List Nat) : List Effect :=
  sys.connections.map (fun c => Effect.sendBinaryTo c msg)

/-- `sendToLocal`: snapshot of `userIndex[userID]`, then `batchSend`. -/
def sendToLocalEffects (sys : HubSys) (u : String) (msg : List Nat) : List Effect :=
  (sys.userIndex u).map (fun c => Effect.sendBinaryTo c msg)

/-- `kickLocal`: snapshot of `userIndex[userID]`, then `Close` each. -/
def kickLocalEffects (sys : HubSys) (u : String) : List Effect :=
  (sys.userIndex u).map (fun c => Effect.closeConn c)

/-- `broadcastToRoomLocal`: snapshot of `rooms[room]`, then
`batchSend`. -/
def roomCastLocalEffects (sys : HubSys) (room : String) (msg : List Nat) : List Effect :=
  (sys.roomsMap room).map (fun c => Effect.sendBinaryTo c msg)

/-- `hubEntity.Broadcast`: with a broker, publish the envelope (the
publish error is discarded: `_ = h.broker.Publish(...)`) and return;
without one, the local fan-out. `pubFails` is the broker's publish
outcome. -/
def hubBroadcastEffects (sys : HubSys) (broker _pubFails : Bool) (msg : List Nat) :
    List Effect :=
  if broker then [Effect.publish (HubMsg.broadcast msg)]
  else broadcastLocalEffects sys msg

/-- `hubEntity.SendTo`: same dual path with a `unicast` envelope. -/
def hubSendToEffects (sys : HubSys) (broker _pubFails : Bool) (u : String) (msg : List Nat) :
    List Effect :=
  if broker then [Effect.publish (HubMsg.unicast u msg)]
  else sendToLocalEffects sys u msg

/-- `hubEntity.Kick`: same dual path with a `kick` envelope. -/
def hubKickEffects (sys : HubSys) (broker _pubFails : Bool) (u : String) : List Effect :=
  if broker then [Effect.publish (HubMsg.kick u)]
  else kickLocalEffects sys u

/-- `hubEntity.BroadcastToRoom`: same dual path with a `room_cast`
envelope. -/
def hubRoomCastEffects (sys : HubSys) (broker _pubFails : Bool) (room : String)
    (msg : List Nat) : List Effect :=
  if broker then [Effect.publish (HubMsg.roomCast room msg)]
  else roomCastLocalEffects sys room msg

/-- `hubEntity.handleBrokerMessage`: decode the envelope and run exactly
one local fan-out of the matching kind. -/
def handleBrokerMessage (sys : HubSys) : HubMsg → List Effect
  | HubMsg.broadcast p => broadcastLocalEffects sys p
  | HubMsg.unicast t p => sendToLocalEffects sys t p
  | HubMsg.kick t => kickLocalEffects sys t
  | HubMsg.roomCast t p => roomCastLocalEffects sys t p

/-! ## Basic facts about the hub model -/

theorem mem_insertId {x c : ConnId} {l : List ConnId} :
    x ∈ insertId c l ↔ x = c ∨ x ∈ l := by
  unfold insertId
  split
  · rename_i h
    exact ⟨Or.inr, fun hx => hx.elim (fun he => he ▸ h) id⟩
  · simp [List.mem_cons]

theorem mem_filter_ne {x c : ConnId} {l : List ConnId} :
    x ∈ l.filter (· ≠ c) ↔ x ∈ l ∧ x ≠ c := by
  simp [List.mem_filter]

theorem mem_filter_ne_str {x c : String} {l : List String} :
    x ∈ l.filter (· ≠ c) ↔ x ∈ l ∧ x ≠ c := by
  simp [List.mem_filter]

theorem updMap_eval (m : String → List ConnId) (k : String) (v : List ConnId)
    (s : String) : updMap m k v s = if s = k then v else m s := rfl

theorem updStore_eval (m : ConnId → HConn) (k : ConnId) (v : HConn) (c : ConnId) :
    updStore m k v c = if c = k then v else m c := rfl

theorem purgeRooms_eval (c : ConnId) (rooms : List String) :
    ∀ (m : String → List ConnId) (r : String),
      purgeRooms c rooms m r =
        if r ∈ rooms then (m r).filter (· ≠ c) else m r := by
  induction rooms with
  | nil => intro m r; simp [purgeRooms]
  | cons room rest ih =>
      intro m r
      have hfold : purgeRooms c (room :: rest) m =
          purgeRooms c rest (updMap m room ((m room).filter (· ≠ c))) := rfl
      rw [hfold, ih]
      by_cases hr : r ∈ rest
      · by_cases hk : r = room
        · subst hk
          simp [hr, updMap, List.filter_filter]
        · simp [hr, hk, updMap, List.mem_cons]
      · by_cases hk : r = room
        · subst hk
          simp [hr, updMap]
        · simp [hr, hk, updMap, List.mem_cons]

/-- The combined hub invariant: user-index consistency (spec §8.1) and
room-membership symmetry (spec §8.2), together with the bookkeeping facts
that make them inductive. -/
structure HubInv (sys : HubSys) : Prop where
  reg_indexed : ∀ c ∈ sys.connections, (sys.conns c).id ≠ "" →
    c ∈ sys.userIndex (sys.conns c).id
  index_id : ∀ u c, c ∈ sys.userIndex u → (sys.conns c).id = u
  index_reg : ∀ u c, c ∈ sys.userIndex u → c ∈ sys.connections
  index_ne : ∀ c, c ∉ sys.userIndex ""
  room_sym : ∀ c ∈ sys.connections, ∀ r,
    (c ∈ sys.roomsMap r ↔ r ∈ (sys.conns c).rooms)
  room_reg : ∀ r c, c ∈ sys.roomsMap r → c ∈ sys.connections

theorem hubInv_init (mr : Nat) : HubInv (hubInit mr) := by
  constructor <;> simp [hubInit]

theorem hubInv_setID (sys : HubSys) (c : ConnId) (i : String)
    (hc : c ∉ sys.connections) (h : HubInv sys) : HubInv (hubSetID sys c i) := by
  have hconn : ∀ c', c' ∈ sys.connections → (hubSetID sys c i).conns c' = sys.conns c' := by
    intro c' hc'
    have hne : c' ≠ c := fun he => hc (he ▸ hc')
    simp [hubSetID, updStore, hne]
  constructor
  · intro c' hc' hne
    rw [hconn c' hc'] at hne ⊢
    exact h.reg_indexed c' hc' hne
  · intro u c' hc'
    rw [hconn c' (h.index_reg u c' hc')]
    exact h.index_id u c' hc'
  · exact h.index_reg
  · exact h.index_ne
  · intro c' hc' r
    rw [hconn c' hc']
    exact h.room_sym c' hc' r
  · exact h.room_reg

theorem hubInv_register (sys : HubSys) (c : ConnId)
    (hgood : c ∈ sys.connections ∨ (sys.conns c).rooms = [])
    (h : HubInv sys) : HubInv (hubRegister sys c) := by
  by_cases huid : (sys.conns c).id = ""
  · have hreg : hubRegister sys c = { sys with connections := insertId c sys.connections } := by
      simp [hubRegister, huid]
    rw [hreg]
    constructor
    · intro c' hc' hne
      rcases mem_insertId.1 hc' with rfl | hc'
      · exact absurd huid hne
      · exact h.reg_indexed c' hc' hne
    · exact h.index_id
    · intro u c' hc'
      exact mem_insertId.2 (Or.inr (h.index_reg u c' hc'))
    · exact h.index_ne
    · intro c' hc' r
      rcases mem_insertId.1 hc' with rfl | hc'
      · rcases hgood with hgood | hgood
        · exact h.room_sym c' hgood r
        · constructor
          · intro hm
            exact (h.room_sym c' (h.room_reg r c' hm) r).1 hm
          · intro hm
            rw [hgood] at hm
            simp at hm
      · exact h.room_sym c' hc' r
    · intro r c' hc'
      exact mem_insertId.2 (Or.inr (h.room_reg r c' hc'))
  · have hreg : hubRegister sys c =
        { sys with
          connections := insertId c sys.connections
          userIndex := updMap sys.userIndex (sys.conns c).id
            (insertId c (sys.userIndex (sys.conns c).id)) } := by
      simp [hubRegister, huid]
    rw [hreg]
    constructor
    · intro c' hc' hne
      rcases mem_insertId.1 hc' with rfl | hc'
      · simp only [updMap_eval, if_pos rfl]
        exact mem_insertId.2 (Or.inl rfl)
      · by_cases he : (sys.conns c').id = (sys.conns c).id
        · rw [he]
          simp only [updMap_eval, if_pos rfl]
          exact mem_insertId.2 (Or.inr (he ▸ h.reg_indexed c' hc' hne))
        · simp only [updMap_eval, if_neg he]
          exact h.reg_indexed c' hc' hne
    · intro u c'
      simp only [updMap_eval]
      by_cases hu : u = (sys.conns c).id
      · rw [if_pos hu]
        intro hc'
        rcases mem_insertId.1 hc' with rfl | hc'
        · exact hu ▸ rfl
        · exact h.index_id u c' (hu ▸ hc')
      · rw [if_neg hu]
        exact h.index_id u c'
    · intro u c'
      simp only [updMap_eval]
      by_cases hu : u = (sys.conns c).id
      · rw [if_pos hu]
        intro hc'
        rcases mem_insertId.1 hc' with rfl | hc'
        · exact mem_insertId.2 (Or.inl rfl)
        · exact mem_insertId.2 (Or.inr (h.index_reg u c' (hu ▸ hc')))
      · rw [if_neg hu]
        intro hc'
        exact mem_insertId.2 (Or.inr (h.index_reg u c' hc'))
    · intro c'
      simp only [updMap_eval]
      rw [if_neg (fun he => huid he.symm)]
      exact h.index_ne c'
    · intro c' hc' r
      rcases mem_insertId.1 hc' with rfl | hc'
      · rcases hgood with hgood | hgood
        · exact h.room_sym c' hgood r
        · constructor
          · intro hm
            exact (h.room_sym c' (h.room_reg r c' hm) r).1 hm
          · intro hm
            rw [hgood] at hm
            simp at hm
      · exact h.room_sym c' hc' r
    · intro r c' hc'
      exact mem_insertId.2 (Or.inr (h.room_reg r c' hc'))

/-- Purging a registered connection from every room in its own rooms set
restores room symmetry and registration for the remaining
connections. -/
theorem purge_room_sym (sys : HubSys) (c : ConnId) (hcm : c ∈ sys.connections)
    (h : HubInv sys) :
    (∀ c' ∈ sys.connections.filter (· ≠ c), ∀ r,
        (c' ∈ purgeRooms c (sys.conns c).rooms sys.roomsMap r ↔
          r ∈ (sys.conns c').rooms)) ∧
    (∀ r c', c' ∈ purgeRooms c (sys.conns c).rooms sys.roomsMap r →
        c' ∈ sys.connections.filter (· ≠ c)) := by
  constructor
  · intro c' hc' r
    obtain ⟨hc'm, hc'ne⟩ := mem_filter_ne.1 hc'
    rw [purgeRooms_eval]
    by_cases hr : r ∈ (sys.conns c).rooms
    · rw [if_pos hr, mem_filter_ne]
      constructor
      · rintro ⟨hm, _⟩
        exact (h.room_sym c' hc'm r).1 hm
      · intro hm
        exact ⟨(h.room_sym c' hc'm r).2 hm, hc'ne⟩
    · rw [if_neg hr]
      exact h.room_sym c' hc'm r
  · intro r c' hc'
    rw [purgeRooms_eval] at hc'
    by_cases hr : r ∈ (sys.conns c).rooms
    · rw [if_pos hr] at hc'
      obtain ⟨hm, hne⟩ := mem_filter_ne.1 hc'
      exact mem_filter_ne.2 ⟨h.room_reg r c' hm, hne⟩
    · rw [if_neg hr] at hc'
      have hnec : c' ≠ c := by
        intro he
        rw [he] at hc'
        exact hr ((h.room_sym c hcm r).1 hc')
      exact mem_filter_ne.2 ⟨h.room_reg r c' hc', hnec⟩

theorem hubInv_unregister (sys : HubSys) (c : ConnId) (h : HubInv sys) :
    HubInv (hubUnregister sys c) := by
  by_cases hcm : c ∈ sys.connections
  · by_cases hu : (sys.conns c).id = ""
    · have hform : hubUnregister sys c =
          { sys with
            connections := sys.connections.filter (· ≠ c)
            roomsMap := purgeRooms c (sys.conns c).rooms sys.roomsMap } := by
        simp [hubUnregister, hcm, hu]
      rw [hform]
      have hcnotidx : ∀ u, c ∉ sys.userIndex u := by
        intro u hcu
        by_cases hu' : u = ""
        · exact h.index_ne c (hu' ▸ hcu)
        · exact hu' ((h.index_id u c hcu).symm.trans hu)
      obtain ⟨hsym, hreg⟩ := purge_room_sym sys c hcm h
      constructor
      · intro c' hc' hne
        obtain ⟨hc'm, _⟩ := mem_filter_ne.1 hc'
        exact h.reg_indexed c' hc'm hne
      · exact h.index_id
      · intro u c' hc'
        have hc'c : c' ≠ c := fun he => hcnotidx u (he ▸ hc')
        exact mem_filter_ne.2 ⟨h.index_reg u c' hc', hc'c⟩
      · exact h.index_ne
      · exact hsym
      · exact hreg
    · have hform : hubUnregister sys c =
          { sys with
            connections := sys.connections.filter (· ≠ c)
            userIndex := updMap sys.userIndex (sys.conns c).id
              ((sys.userIndex (sys.conns c).id).filter (· ≠ c))
            roomsMap := purgeRooms c (sys.conns c).rooms sys.roomsMap } := by
        simp [hubUnregister, hcm, hu]
      rw [hform]
      obtain ⟨hsym, hreg⟩ := purge_room_sym sys c hcm h
      constructor
      · intro c' hc' hne
        obtain ⟨hc'm, hc'ne⟩ := mem_filter_ne.1 hc'
        simp only [updMap_eval]
        by_cases he : (sys.conns c').id = (sys.conns c).id
        · rw [if_pos he]
          exact mem_filter_ne.2 ⟨he ▸ h.reg_indexed c' hc'm hne, hc'ne⟩
        · rw [if_neg he]
          exact h.reg_indexed c' hc'm hne
      · intro u c'
        simp only [updMap_eval]
        by_cases hue : u = (sys.conns c).id
        · rw [if_pos hue]
          intro hc'
          exact h.index_id u c' (hue ▸ (mem_filter_ne.1 hc').1)
        · rw [if_neg hue]
          exact h.index_id u c'
      · intro u c'
        simp only [updMap_eval]
        by_cases hue : u = (sys.conns c).id
        · rw [if_pos hue]
          intro hc'
          obtain ⟨hm, hne⟩ := mem_filter_ne.1 hc'
          exact mem_filter_ne.2 ⟨h.index_reg u c' (hue ▸ hm), hne⟩
        · rw [if_neg hue]
          intro hc'
          have hc'c : c' ≠ c := by
            rintro rfl
            exact hue ((h.index_id u c' hc').symm)
          exact mem_filter_ne.2 ⟨h.index_reg u c' hc', hc'c⟩
      · intro c'
        simp only [updMap_eval]
        rw [if_neg (fun he => hu he.symm)]
        exact h.index_ne c'
      · exact hsym
      · exact hreg
  · simpa [hubUnregister, hcm] using h

theorem HConn.addRoom_id (c : HConn) (r : String) : (c.addRoom r).id = c.id := by
  unfold HConn.addRoom
  split <;> rfl

theorem HConn.mem_addRoom {c : HConn} {r r' : String} :
    r' ∈ (c.addRoom r).rooms ↔ r' = r ∨ r' ∈ c.rooms := by
  unfold HConn.addRoom
  split
  · rename_i h
    exact ⟨Or.inr, fun hx => hx.elim (fun he => he ▸ h) (fun hm => hm)⟩
  · simp [List.mem_append, or_comm]

theorem HConn.removeRoom_id (c : HConn) (r : String) : (c.removeRoom r).id = c.id := rfl

theorem HConn.mem_removeRoom {c : HConn} {r r' : String} :
    r' ∈ (c.removeRoom r).rooms ↔ r' ∈ c.rooms ∧ r' ≠ r := by
  simp [HConn.removeRoom, List.mem_filter]

theorem joinOne_connections (mr : Nat) (room : String) (sys : HubSys) (c : ConnId) :
    (joinOne mr room sys c).connections = sys.connections := by
  unfold joinOne
  split
  · rfl
  · split <;> rfl

theorem joinOne_maxRooms (mr : Nat) (room : String) (sys : HubSys) (c : ConnId) :
    (joinOne mr room sys c).maxRooms = sys.maxRooms := by
  unfold joinOne
  split
  · rfl
  · split <;> rfl

theorem joinOne_ctr_mono (mr : Nat) (room : String) (sys : HubSys) (c : ConnId) :
    sys.ctrLimitMaxRooms ≤ (joinOne mr room sys c).ctrLimitMaxRooms := by
  unfold joinOne
  split
  · exact Nat.le_refl _
  · split
    · exact Nat.le_succ _
    · exact Nat.le_refl _

theorem joinOne_conns_other (mr : Nat) (room : String) (sys : HubSys) (c x : ConnId)
    (hx : x ≠ c) : (joinOne mr room sys c).conns x = sys.conns x := by
  unfold joinOne
  split
  · rfl
  · split
    · rfl
    · simp [updStore_eval, hx]

theorem hubInv_joinOne (mr : Nat) (room : String) (sys : HubSys) (c : ConnId)
    (hc : c ∈ sys.connections) (h : HubInv sys) : HubInv (joinOne mr room sys c) := by
  by_cases h1 : room ∈ (sys.conns c).rooms
  · have hform : joinOne mr room sys c = sys := by simp [joinOne, h1]
    rw [hform]
    exact h
  by_cases h2 : mr ≤ (sys.conns c).rooms.length
  · have hform : joinOne mr room sys c =
        { sys with ctrLimitMaxRooms := sys.ctrLimitMaxRooms + 1 } := by
      simp [joinOne, h1, h2]
    rw [hform]
    exact ⟨h.reg_indexed, h.index_id, h.index_reg, h.index_ne, h.room_sym, h.room_reg⟩
  · have hform : joinOne mr room sys c =
        { sys with
          roomsMap := updMap sys.roomsMap room (insertId c (sys.roomsMap room))
          conns := updStore sys.conns c ((sys.conns c).addRoom room)
          ctrJoin := sys.ctrJoin + 1 } := by
      simp [joinOne, h1, h2]
    rw [hform]
    have hid : ∀ x, (updStore sys.conns c ((sys.conns c).addRoom room) x).id = (sys.conns x).id := by
      intro x
      simp only [updStore_eval]
      split
      · rename_i hx
        rw [hx, HConn.addRoom_id]
      · rfl
    constructor
    · intro c' hc' hne
      rw [hid c'] at hne ⊢
      exact h.reg_indexed c' hc' hne
    · intro u c' hc'
      rw [hid c']
      exact h.index_id u c' hc'
    · exact h.index_reg
    · exact h.index_ne
    · intro c' hc' r
      simp only [updMap_eval, updStore_eval]
      by_cases hx : c' = c
      · rw [if_pos hx, hx]
        by_cases hr : r = room
        · rw [if_pos hr, hr]
          simp [mem_insertId, HConn.mem_addRoom]
        · rw [if_neg hr, HConn.mem_addRoom]
          constructor
          · intro hm
            exact Or.inr ((h.room_sym c hc r).1 hm)
          · intro hm
            rcases hm with he | hm
            · exact absurd he hr
            · exact (h.room_sym c hc r).2 hm
      · rw [if_neg hx]
        by_cases hr : r = room
        · rw [if_pos hr, hr, mem_insertId]
          constructor
          · intro hm
            rcases hm with he | hm
            · exact absurd he hx
            · exact (h.room_sym c' hc' room).1 hm
          · intro hm
            exact Or.inr ((h.room_sym c' hc' room).2 hm)
        · rw [if_neg hr]
          exact h.room_sym c' hc' r
    · intro r c'
      simp only [updMap_eval]
      by_cases hr : r = room
      · rw [if_pos hr]
        intro hm'
        rcases mem_insertId.1 hm' with he | hm
        · rw [he]
          exact hc
        · exact h.room_reg room c' hm
      · rw [if_neg hr]
        exact h.room_reg r c'

theorem hubInv_foldJoin (mr : Nat) (room : String) :
    ∀ (l : List ConnId) (sys : HubSys), (∀ x ∈ l, x ∈ sys.connections) →
      HubInv sys → HubInv (l.foldl (joinOne mr room) sys) := by
  intro l
  induction l with
  | nil => intro sys _ h; exact h
  | cons x rest ih =>
      intro sys hl h
      simp only [List.foldl_cons]
      apply ih
      · intro y hy
        rw [joinOne_connections]
        exact hl y (List.mem_cons_of_mem _ hy)
      · exact hubInv_joinOne mr room sys x (hl x (List.mem_cons_self _ _)) h

theorem hubInv_join (sys : HubSys) (u room : String) (h : HubInv sys) :
    HubInv (hubJoin sys u room) := by
  by_cases hcs : (sys.userIndex u).isEmpty
  · have hform : hubJoin sys u room = sys := by simp [hubJoin, hcs]
    rw [hform]
    exact h
  · have hform : hubJoin sys u room =
        (sys.userIndex u).foldl (joinOne sys.maxRooms room) sys := by
      simp [hubJoin, hcs]
    rw [hform]
    exact hubInv_foldJoin _ _ _ _ (fun x hx => h.index_reg u x hx) h

theorem hubInv_leaveOne (room : String) (sys : HubSys) (c : ConnId)
    (h : HubInv sys) : HubInv (leaveOne room sys c) := by
  by_cases h1 : c ∈ sys.roomsMap room
  · have hform : leaveOne room sys c =
        { sys with
          roomsMap := updMap sys.roomsMap room ((sys.roomsMap room).filter (· ≠ c))
          conns := updStore sys.conns c ((sys.conns c).removeRoom room)
          ctrLeave := sys.ctrLeave + 1 } := by
      simp [leaveOne, h1]
    rw [hform]
    have hid : ∀ x, (updStore sys.conns c ((sys.conns c).removeRoom room) x).id = (sys.conns x).id := by
      intro x
      simp only [updStore_eval]
      split
      · rename_i hx
        rw [hx, HConn.removeRoom_id]
      · rfl
    constructor
    · intro c' hc' hne
      rw [hid c'] at hne ⊢
      exact h.reg_indexed c' hc' hne
    · intro u c' hc'
      rw [hid c']
      exact h.index_id u c' hc'
    · exact h.index_reg
    · exact h.index_ne
    · intro c' hc' r
      simp only [updMap_eval, updStore_eval]
      by_cases hx : c' = c
      · rw [if_pos hx, hx]
        by_cases hr : r = room
        · rw [if_pos hr, hr, mem_filter_ne, HConn.mem_removeRoom]
          simp
        · rw [if_neg hr, HConn.mem_removeRoom]
          have hcc : c ∈ sys.connections := hx ▸ hc'
          constructor
          · intro hm
            exact ⟨(h.room_sym c hcc r).1 hm, hr⟩
          · intro hm
            exact (h.room_sym c hcc r).2 hm.1
      · rw [if_neg hx]
        by_cases hr : r = room
        · rw [if_pos hr, hr, mem_filter_ne]
          constructor
          · intro hm
            exact (h.room_sym c' hc' room).1 hm.1
          · intro hm
            exact ⟨(h.room_sym c' hc' room).2 hm, hx⟩
        · rw [if_neg hr]
          exact h.room_sym c' hc' r
    · intro r c'
      simp only [updMap_eval]
      by_cases hr : r = room
      · rw [if_pos hr]
        intro hm'
        exact h.room_reg room c' (mem_filter_ne.1 hm').1
      · rw [if_neg hr]
        exact h.room_reg r c'
  · have hform : leaveOne room sys c = sys := by simp [leaveOne, h1]
    rw [hform]
    exact h

theorem hubInv_foldLeave (room : String) :
    ∀ (l : List ConnId) (sys : HubSys), HubInv sys →
      HubInv (l.foldl (leaveOne room) sys) := by
  intro l
  induction l with
  | nil => intro sys h; exact h
  | cons x rest ih =>
      intro sys h
      simp only [List.foldl_cons]
      exact ih _ (hubInv_leaveOne room sys x h)

theorem hubInv_leave (sys : HubSys) (u room : String) (h : HubInv sys) :
    HubInv (hubLeave sys u room) := by
  by_cases h1 : (sys.userIndex u).isEmpty
  · have hform : hubLeave sys u room = sys := by simp [hubLeave, h1]
    rw [hform]
    exact h
  by_cases h2 : (sys.roomsMap room).isEmpty
  · have hform : hubLeave sys u room = sys := by simp [hubLeave, h1, h2]
    rw [hform]
    exact h
  · have hform : hubLeave sys u room =
        (sys.userIndex u).foldl (leaveOne room) sys := by
      simp [hubLeave, h1, h2]
    rw [hform]
    exact hubInv_foldLeave room _ _ h

/-- Under the `goodOps` discipline, every hub operation preserves the
combined invariant. -/
theorem hubInv_run : ∀ (ops : List HubOp) (sys : HubSys), HubInv sys →
    goodOps sys ops = true → HubInv (hubRun sys ops) := by
  intro ops
  induction ops with
  | nil => intro sys h _; exact h
  | cons op rest ih =>
      intro sys h hg
      simp only [goodOps, Bool.and_eq_true] at hg
      obtain ⟨hop, hrest⟩ := hg
      simp only [hubRun]
      refine ih (hubApply sys op) ?_ hrest
      cases op with
      | register c =>
          refine hubInv_register sys c ?_ h
          have hgc : c ∈ sys.connections ∨ (sys.conns c).rooms = [] := by
            simpa [List.isEmpty_iff] using hop
          exact hgc
      | unregister c => exact hubInv_unregister sys c h
      | setID c i => exact hubInv_setID sys c i (of_decide_eq_true hop) h
      | join u room => exact hubInv_join sys u room h
      | leave u room => exact hubInv_leave sys u room h

/-! ## The user-index invariant on its own

The register-freshness side of `goodOps` matters only for the rooms
half of `HubInv`; user-index consistency needs just the `SetID`
discipline, since `Register`, `Join` and `Leave` never break it. -/

/-- The discipline of spec §4.4's edge case alone: `SetID` is only
invoked on connections not currently registered (callers SetID before
Register).  All other operations are unrestricted. -/
def goodSetID (sys : HubSys) : List HubOp → Bool
  | [] => true
  | op :: ops =>
      (match op with
       | HubOp.setID c _ => decide (c ∉ sys.connections)
       | _ => true) && goodSetID (hubApply sys op) ops

/-- The user-index half of `HubInv`. -/
structure IndexInv (sys : HubSys) : Prop where
  reg_indexed : ∀ c ∈ sys.connections, (sys.conns c).id ≠ "" →
    c ∈ sys.userIndex (sys.conns c).id
  index_id : ∀ u c, c ∈ sys.userIndex u → (sys.conns c).id = u
  index_reg : ∀ u c, c ∈ sys.userIndex u → c ∈ sys.connections
  index_ne : ∀ c, c ∉ sys.userIndex ""

theorem indexInv_init (mr : Nat) : IndexInv (hubInit mr) := by
  constructor <;> simp [hubInit]

theorem indexInv_setID (sys : HubSys) (c : ConnId) (i : String)
    (hc : c ∉ sys.connections) (h : IndexInv sys) : IndexInv (hubSetID sys c i) := by
  have hconn : ∀ c', c' ∈ sys.connections → (hubSetID sys c i).conns c' = sys.conns c' := by
    intro c' hc'
    have hne : c' ≠ c := fun he => hc (he ▸ hc')
    simp [hubSetID, updStore, hne]
  constructor
  · intro c' hc' hne
    rw [hconn c' hc'] at hne ⊢
    exact h.reg_indexed c' hc' hne
  · intro u c' hc'
    rw [hconn c' (h.index_reg u c' hc')]
    exact h.index_id u c' hc'
  · exact h.index_reg
  · exact h.index_ne

/-- Unlike the rooms half, the index half is preserved by `Register`
with no freshness condition. -/
theorem indexInv_register (sys : HubSys) (c : ConnId) (h : IndexInv sys) :
    IndexInv (hubRegister sys c) := by
  by_cases huid : (sys.conns c).id = ""
  · have hform : hubRegister sys c = { sys with connections := insertId c sys.connections } := by
      simp [hubRegister, huid]
    rw [hform]
    constructor
    · intro c' hc' hne
      rcases mem_insertId.1 hc' with rfl | hc'
      · exact absurd huid hne
      · exact h.reg_indexed c' hc' hne
    · exact h.index_id
    · intro u c' hc'
      exact mem_insertId.2 (Or.inr (h.index_reg u c' hc'))
    · exact h.index_ne
  · have hform : hubRegister sys c =
        { sys with
          connections := insertId c sys.connections
          userIndex := updMap sys.userIndex (sys.conns c).id
            (insertId c (sys.userIndex (sys.conns c).id)) } := by
      simp [hubRegister, huid]
    rw [hform]
    constructor
    · intro c' hc' hne
      rcases mem_insertId.1 hc' with rfl | hc'
      · simp only [updMap_eval, if_pos rfl]
        exact mem_insertId.2 (Or.inl rfl)
      · by_cases he : (sys.conns c').id = (sys.conns c).id
        · rw [he]
          simp only [updMap_eval, if_pos rfl]
          exact mem_insertId.2 (Or.inr (he ▸ h.reg_indexed c' hc' hne))
        · simp only [updMap_eval, if_neg he]
          exact h.reg_indexed c' hc' hne
    · intro u c'
      simp only [updMap_eval]
      by_cases hu : u = (sys.conns c).id
      · rw [if_pos hu]
        intro hc'
        rcases mem_insertId.1 hc' with rfl | hc'
        · exact hu ▸ rfl
        · exact h.index_id u c' (hu ▸ hc')
      · rw [if_neg hu]
        exact h.index_id u c'
    · intro u c'
      simp only [updMap_eval]
      by_cases hu : u = (sys.conns c).id
      · rw [if_pos hu]
        intro hc'
        rcases mem_insertId.1 hc' with rfl | hc'
        · exact mem_insertId.2 (Or.inl rfl)
        · exact mem_insertId.2 (Or.inr (h.index_reg u c' (hu ▸ hc')))
      · rw [if_neg hu]
        intro hc'
        exact mem_insertId.2 (Or.inr (h.index_reg u c' hc'))
    · intro c'
      simp only [updMap_eval]
      rw [if_neg (fun he => huid he.symm)]
      exact h.index_ne c'

theorem indexInv_unregister (sys : HubSys) (c : ConnId) (h : IndexInv sys) :
    IndexInv (hubUnregister sys c) := by
  by_cases hcm : c ∈ sys.connections
  · by_cases hu : (sys.conns c).id = ""
    · have hform : hubUnregister sys c =
          { sys with
            connections := sys.connections.filter (· ≠ c)
            roomsMap := purgeRooms c (sys.conns c).rooms sys.roomsMap } := by
        simp [hubUnregister, hcm, hu]
      rw [hform]
      have hcnotidx : ∀ u, c ∉ sys.userIndex u := by
        intro u hcu
        by_cases hu' : u = ""
        · exact h.index_ne c (hu' ▸ hcu)
        · exact hu' ((h.index_id u c hcu).symm.trans hu)
      constructor
      · intro c' hc' hne
        obtain ⟨hc'm, _⟩ := mem_filter_ne.1 hc'
        exact h.reg_indexed c' hc'm hne
      · exact h.index_id
      · intro u c' hc'
        have hc'c : c' ≠ c := fun he => hcnotidx u (he ▸ hc')
        exact mem_filter_ne.2 ⟨h.index_reg u c' hc', hc'c⟩
      · exact h.index_ne
    · have hform : hubUnregister sys c =
          { sys with
            connections := sys.connections.filter (· ≠ c)
            userIndex := updMap sys.userIndex (sys.conns c).id
              ((sys.userIndex (sys.conns c).id).filter (· ≠ c))
            roomsMap := purgeRooms c (sys.conns c).rooms sys.roomsMap } := by
        simp [hubUnregister, hcm, hu]
      rw [hform]
      constructor
      · intro c' hc' hne
        obtain ⟨hc'm, hc'ne⟩ := mem_filter_ne.1 hc'
        simp only [updMap_eval]
        by_cases he : (sys.conns c').id = (sys.conns c).id
        · rw [if_pos he]
          exact mem_filter_ne.2 ⟨he ▸ h.reg_indexed c' hc'm hne, hc'ne⟩
        · rw [if_neg he]
          exact h.reg_indexed c' hc'm hne
      · intro u c'
        simp only [updMap_eval]
        by_cases hue : u = (sys.conns c).id
        · rw [if_pos hue]
          intro hc'
          exact h.index_id u c' (hue ▸ (mem_filter_ne.1 hc').1)
        · rw [if_neg hue]
          exact h.index_id u c'
      · intro u c'
        simp only [updMap_eval]
        by_cases hue : u = (sys.conns c).id
        · rw [if_pos hue]
          intro hc'
          obtain ⟨hm, hne⟩ := mem_filter_ne.1 hc'
          exact mem_filter_ne.2 ⟨h.index_reg u c' (hue ▸ hm), hne⟩
        · rw [if_neg hue]
          intro hc'
          have hc'c : c' ≠ c := by
            rintro rfl
            exact hue ((h.index_id u c' hc').symm)
          exact mem_filter_ne.2 ⟨h.index_reg u c' hc', hc'c⟩
      · intro c'
        simp only [updMap_eval]
        rw [if_neg (fun he => hu he.symm)]
        exact h.index_ne c'
  · simpa [hubUnregister, hcm] using h

/-- The index invariant only looks at `connections`, `userIndex` and the
connection ids, so it transports across any operation that preserves
those three. -/
theorem indexInv_of_same (sys sys' : HubSys)
    (hconn : sys'.connections = sys.connections)
    (hui : sys'.userIndex = sys.userIndex)
    (hid : ∀ x, (sys'.conns x).id = (sys.conns x).id)
    (h : IndexInv sys) : IndexInv sys' := by
  constructor
  · intro c hc hne
    rw [hid c] at hne ⊢
    rw [hui]
    refine h.reg_indexed c ?_ hne
    rw [← hconn]
    exact hc
  · intro u c hc
    rw [hid c]
    refine h.index_id u c ?_
    rw [← hui]
    exact hc
  · intro u c hc
    rw [hconn]
    refine h.index_reg u c ?_
    rw [← hui]
    exact hc
  · intro c
    rw [hui]
    exact h.index_ne c

theorem joinOne_userIndex (mr : Nat) (room : String) (sys : HubSys) (c : ConnId) :
    (joinOne mr room sys c).userIndex = sys.userIndex := by
  unfold joinOne
  split
  · rfl
  · split <;> rfl

theorem joinOne_conns_id (mr : Nat) (room : String) (sys : HubSys) (c x : ConnId) :
    ((joinOne mr room sys c).conns x).id = (sys.conns x).id := by
  unfold joinOne
  split
  · rfl
  · split
    · rfl
    · simp only [updStore_eval]
      split
      · rename_i hx
        rw [hx, HConn.addRoom_id]
      · rfl

theorem foldJoin_connections (mr : Nat) (room : String) :
    ∀ (l : List ConnId) (sys : HubSys),
      (l.foldl (joinOne mr room) sys).connections = sys.connections := by
  intro l
  induction l with
  | nil => intro sys; rfl
  | cons x rest ih =>
      intro sys
      simp only [List.foldl_cons]
      rw [ih, joinOne_connections]

theorem foldJoin_userIndex (mr : Nat) (room : String) :
    ∀ (l : List ConnId) (sys : HubSys),
      (l.foldl (joinOne mr room) sys).userIndex = sys.userIndex := by
  intro l
  induction l with
  | nil => intro sys; rfl
  | cons x rest ih =>
      intro sys
      simp only [List.foldl_cons]
      rw [ih, joinOne_userIndex]

theorem foldJoin_conns_id (mr : Nat) (room : String) :
    ∀ (l : List ConnId) (sys : HubSys) (x : ConnId),
      ((l.foldl (joinOne mr room) sys).conns x).id = (sys.conns x).id := by
  intro l
  induction l with
  | nil => intro sys x; rfl
  | cons y rest ih =>
      intro sys x
      simp only [List.foldl_cons]
      rw [ih, joinOne_conns_id]

theorem leaveOne_connections (room : String) (sys : HubSys) (c : ConnId) :
    (leaveOne room sys c).connections = sys.connections := by
  unfold leaveOne
  split <;> rfl

theorem leaveOne_userIndex (room : String) (sys : HubSys) (c : ConnId) :
    (leaveOne room sys c).userIndex = sys.userIndex := by
  unfold leaveOne
  split <;> rfl

theorem leaveOne_conns_id (room : String) (sys : HubSys) (c x : ConnId) :
    ((leaveOne room sys c).conns x).id = (sys.conns x).id := by
  unfold leaveOne
  split
  · simp only [updStore_eval]
    split
    · rename_i hx
      rw [hx, HConn.removeRoom_id]
    · rfl
  · rfl

theorem foldLeave_connections (room : String) :
    ∀ (l : List ConnId) (sys : HubSys),
      (l.foldl (leaveOne room) sys).connections = sys.connections := by
  intro l
  induction l with
  | nil => intro sys; rfl
  | cons x rest ih =>
      intro sys
      simp only [List.foldl_cons]
      rw [ih, leaveOne_connections]

theorem foldLeave_userIndex (room : String) :
    ∀ (l : List ConnId) (sys : HubSys),
      (l.foldl (leaveOne room) sys).userIndex = sys.userIndex := by
  intro l
  induction l with
  | nil => intro sys; rfl
  | cons x rest ih =>
      intro sys
      simp only [List.foldl_cons]
      rw [ih, leaveOne_userIndex]

theorem foldLeave_conns_id (room : String) :
    ∀ (l : List ConnId) (sys : HubSys) (x : ConnId),
      ((l.foldl (leaveOne room) sys).conns x).id = (sys.conns x).id := by
  intro l
  induction l with
  | nil => intro sys x; rfl
  | cons y rest ih =>
      intro sys x
      simp only [List.foldl_cons]
      rw [ih, leaveOne_conns_id]

theorem indexInv_join (sys : HubSys) (u room : String) (h : IndexInv sys) :
    IndexInv (hubJoin sys u room) := by
  by_cases hcs : (sys.userIndex u).isEmpty
  · have hform : hubJoin sys u room = sys := by simp [hubJoin, hcs]
    rw [hform]
    exact h
  · have hform : hubJoin sys u room =
        (sys.userIndex u).foldl (joinOne sys.maxRooms room) sys := by
      simp [hubJoin, hcs]
    rw [hform]
    exact indexInv_of_same sys _
      (foldJoin_connections sys.maxRooms room (sys.userIndex u) sys)
      (foldJoin_userIndex sys.maxRooms room (sys.userIndex u) sys)
      (foldJoin_conns_id sys.maxRooms room (sys.userIndex u) sys) h

theorem indexInv_leave (sys : HubSys) (u room : String) (h : IndexInv sys) :
    IndexInv (hubLeave sys u room) := by
  by_cases h1 : (sys.userIndex u).isEmpty
  · have hform : hubLeave sys u room = sys := by simp [hubLeave, h1]
    rw [hform]
    exact h
  by_cases h2 : (sys.roomsMap room).isEmpty
  · have hform : hubLeave sys u room = sys := by simp [hubLeave, h1, h2]
    rw [hform]
    exact h
  · have hform : hubLeave sys u room =
        (sys.userIndex u).foldl (leaveOne room) sys := by
      simp [hubLeave, h1, h2]
    rw [hform]
    exact indexInv_of_same sys _
      (foldLeave_connections room (sys.userIndex u) sys)
      (foldLeave_userIndex room (sys.userIndex u) sys)
      (foldLeave_conns_id room (sys.userIndex u) sys) h

/-- Only the `SetID` restriction is needed to keep the user index
consistent: every other operation preserves it unconditionally. -/
theorem indexInv_run : ∀ (ops : List HubOp) (sys : HubSys), IndexInv sys →
    goodSetID sys ops = true → IndexInv (hubRun sys ops) := by
  intro ops
  induction ops with
  | nil => intro sys h _; exact h
  | cons op rest ih =>
      intro sys h hg
      simp only [goodSetID, Bool.and_eq_true] at hg
      obtain ⟨hop, hrest⟩ := hg
      simp only [hubRun]
      refine ih (hubApply sys op) ?_ hrest
      cases op with
      | register c => exact indexInv_register sys c h
      | unregister c => exact indexInv_unregister sys c h
      | setID c i => exact indexInv_setID sys c i (of_decide_eq_true hop) h
      | join u room => exact indexInv_join sys u room h
      | leave u room => exact indexInv_leave sys u room h

/-! ## The `maxRoomsPerConnect` bound -/

/-- Every connection object's rooms set is within `maxRoomsPerConnect`. -/
def RoomsBound (sys : HubSys) : Prop :=
  ∀ x : ConnId, ((sys.conns x).rooms).length ≤ sys.maxRooms

theorem joinOne_roomsBound (mr : Nat) (room : String) (sys : HubSys) (c : ConnId)
    (hmr : mr = sys.maxRooms) (h : RoomsBound sys) : RoomsBound (joinOne mr room sys c) := by
  by_cases h1 : room ∈ (sys.conns c).rooms
  · have hform : joinOne mr room sys c = sys := by simp [joinOne, h1]
    rw [hform]
    exact h
  by_cases h2 : mr ≤ (sys.conns c).rooms.length
  · have hform : joinOne mr room sys c =
        { sys with ctrLimitMaxRooms := sys.ctrLimitMaxRooms + 1 } := by
      simp [joinOne, h1, h2]
    rw [hform]
    exact h
  · have hform : joinOne mr room sys c =
        { sys with
          roomsMap := updMap sys.roomsMap room (insertId c (sys.roomsMap room))
          conns := updStore sys.conns c ((sys.conns c).addRoom room)
          ctrJoin := sys.ctrJoin + 1 } := by
      simp [joinOne, h1, h2]
    rw [hform]
    intro x
    simp only [updStore_eval]
    split
    · have hlt : (sys.conns c).rooms.length < mr := Nat.lt_of_not_le h2
      have hadd : ((sys.conns c).addRoom room).rooms = (sys.conns c).rooms ++ [room] := by
        simp [HConn.addRoom, h1]
      simp only [hadd, List.length_append, List.length_singleton]
      omega
    · exact h x

theorem foldJoin_roomsBound (mr : Nat) (room : String) :
    ∀ (l : List ConnId) (sys : HubSys), mr = sys.maxRooms → RoomsBound sys →
      RoomsBound (l.foldl (joinOne mr room) sys) := by
  intro l
  induction l with
  | nil => intro sys _ h; exact h
  | cons x rest ih =>
      intro sys hmr h
      simp only [List.foldl_cons]
      exact ih _ (hmr.trans (joinOne_maxRooms mr room sys x).symm)
        (joinOne_roomsBound mr room sys x hmr h)

theorem leaveOne_roomsBound (room : String) (sys : HubSys) (c : ConnId)
    (h : RoomsBound sys) : RoomsBound (leaveOne room sys c) := by
  by_cases h1 : c ∈ sys.roomsMap room
  · have hform : leaveOne room sys c =
        { sys with
          roomsMap := updMap sys.roomsMap room ((sys.roomsMap room).filter (· ≠ c))
          conns := updStore sys.conns c ((sys.conns c).removeRoom room)
          ctrLeave := sys.ctrLeave + 1 } := by
      simp [leaveOne, h1]
    rw [hform]
    intro x
    simp only [updStore_eval]
    split
    · rename_i hx
      have hle : ((sys.conns c).removeRoom room).rooms.length ≤ (sys.conns c).rooms.length :=
        List.length_filter_le _ _
      exact Nat.le_trans hle (h c)
    · exact h x
  · have hform : leaveOne room sys c = sys := by simp [leaveOne, h1]
    rw [hform]
    exact h

theorem leaveOne_maxRooms (room : String) (sys : HubSys) (c : ConnId) :
    (leaveOne room sys c).maxRooms = sys.maxRooms := by
  unfold leaveOne
  split <;> rfl

theorem foldLeave_roomsBound (room : String) :
    ∀ (l : List ConnId) (sys : HubSys), RoomsBound sys →
      RoomsBound (l.foldl (leaveOne room) sys) := by
  intro l
  induction l with
  | nil => intro sys h; exact h
  | cons x rest ih =>
      intro sys h
      simp only [List.foldl_cons]
      exact ih _ (leaveOne_roomsBound room sys x h)

theorem hubRegister_conns (sys : HubSys) (c : ConnId) :
    (hubRegister sys c).conns = sys.conns := by
  by_cases hu : (sys.conns c).id = "" <;> simp [hubRegister, hu]

theorem hubRegister_maxRooms (sys : HubSys) (c : ConnId) :
    (hubRegister sys c).maxRooms = sys.maxRooms := by
  by_cases hu : (sys.conns c).id = "" <;> simp [hubRegister, hu]

theorem hubUnregister_conns (sys : HubSys) (c : ConnId) :
    (hubUnregister sys c).conns = sys.conns := by
  by_cases hcm : c ∈ sys.connections <;>
    by_cases hu : (sys.conns c).id = "" <;>
      simp [hubUnregister, hcm, hu]

theorem hubUnregister_maxRooms (sys : HubSys) (c : ConnId) :
    (hubUnregister sys c).maxRooms = sys.maxRooms := by
  by_cases hcm : c ∈ sys.connections <;>
    by_cases hu : (sys.conns c).id = "" <;>
      simp [hubUnregister, hcm, hu]

theorem hubSetID_rooms (sys : HubSys) (c : ConnId) (i : String) (x : ConnId) :
    ((hubSetID sys c i).conns x).rooms = (sys.conns x).rooms := by
  simp only [hubSetID, updStore_eval]
  split
  · rename_i hx
    rw [hx]
  · rfl

theorem roomsBound_apply (sys : HubSys) (op : HubOp) (h : RoomsBound sys) :
    RoomsBound (hubApply sys op) := by
  cases op with
  | register c =>
      intro x
      simp only [hubApply, hubRegister_conns, hubRegister_maxRooms]
      exact h x
  | unregister c =>
      intro x
      simp only [hubApply, hubUnregister_conns, hubUnregister_maxRooms]
      exact h x
  | setID c i =>
      intro x
      simp only [hubApply, hubSetID_rooms]
      exact h x
  | join u room =>
      simp only [hubApply]
      by_cases hcs : (sys.userIndex u).isEmpty
      · have hform : hubJoin sys u room = sys := by simp [hubJoin, hcs]
        rw [hform]
        exact h
      · have hform : hubJoin sys u room =
            (sys.userIndex u).foldl (joinOne sys.maxRooms room) sys := by
          simp [hubJoin, hcs]
        rw [hform]
        exact foldJoin_roomsBound _ room _ sys rfl h
  | leave u room =>
      simp only [hubApply]
      by_cases h1 : (sys.userIndex u).isEmpty
      · have hform : hubLeave sys u room = sys := by simp [hubLeave, h1]
        rw [hform]
        exact h
      by_cases h2 : (sys.roomsMap room).isEmpty
      · have hform : hubLeave sys u room = sys := by simp [hubLeave, h1, h2]
        rw [hform]
        exact h
      · have hform : hubLeave sys u room =
            (sys.userIndex u).foldl (leaveOne room) sys := by
          simp [hubLeave, h1, h2]
        rw [hform]
        exact foldLeave_roomsBound room _ sys h

theorem roomsBound_run : ∀ (ops : List HubOp) (sys : HubSys), RoomsBound sys →
    RoomsBound (hubRun sys ops) := by
  intro ops
  induction ops with
  | nil => intro sys h; exact h
  | cons op rest ih =>
      intro sys h
      simp only [hubRun]
      exact ih _ (roomsBound_apply sys op h)

/-! ## The per-connection behaviour of `Join` -/

theorem foldJoin_conns_not_mem (mr : Nat) (room : String) :
    ∀ (l : List ConnId) (sys : HubSys) (c : ConnId), c ∉ l →
      (l.foldl (joinOne mr room) sys).conns c = sys.conns c := by
  intro l
  induction l with
  | nil => intro sys c _; rfl
  | cons x rest ih =>
      intro sys c hc
      simp only [List.foldl_cons]
      have hcx : c ≠ x := fun he => hc (he ▸ List.mem_cons_self _ _)
      rw [ih _ c (fun hm => hc (List.mem_cons_of_mem _ hm))]
      exact joinOne_conns_other mr room sys x c hcx

theorem foldJoin_ctr_mono (mr : Nat) (room : String) :
    ∀ (l : List ConnId) (sys : HubSys),
      sys.ctrLimitMaxRooms ≤ (l.foldl (joinOne mr room) sys).ctrLimitMaxRooms := by
  intro l
  induction l with
  | nil => intro sys; exact Nat.le_refl _
  | cons x rest ih =>
      intro sys
      simp only [List.foldl_cons]
      exact Nat.le_trans (joinOne_ctr_mono mr room sys x) (ih _)

/-- Behaviour of the `Join` loop at one member `c` of the user index:
when `c` is at the limit and not in the room, `c` is skipped and the
`max_rooms` counter is bumped; when `c` is under the limit (or already in
the room), `c` ends up in the room. -/
theorem foldJoin_spec (mr : Nat) (room : String) :
    ∀ (l : List ConnId) (sys : HubSys) (c : ConnId), l.Nodup → c ∈ l →
      (room ∉ (sys.conns c).rooms → mr ≤ (sys.conns c).rooms.length →
        (l.foldl (joinOne mr room) sys).conns c = sys.conns c ∧
        sys.ctrLimitMaxRooms + 1 ≤ (l.foldl (joinOne mr room) sys).ctrLimitMaxRooms) ∧
      ((room ∈ (sys.conns c).rooms ∨ (sys.conns c).rooms.length < mr) →
        room ∈ ((l.foldl (joinOne mr room) sys).conns c).rooms) := by
  intro l
  induction l with
  | nil => intro sys c _ hc; exact absurd hc (List.not_mem_nil c)
  | cons x rest ih =>
      intro sys c hnd hc
      have hndrest : rest.Nodup := hnd.of_cons
      by_cases hcx : c = x
      · subst hcx
        have hcnotrest : c ∉ rest := (List.nodup_cons.1 hnd).1
        simp only [List.foldl_cons]
        constructor
        · intro hroom hlen
          have hform : joinOne mr room sys c =
              { sys with ctrLimitMaxRooms := sys.ctrLimitMaxRooms + 1 } := by
            simp [joinOne, hroom, hlen]
          rw [hform, foldJoin_conns_not_mem mr room rest _ c hcnotrest]
          exact ⟨rfl, foldJoin_ctr_mono mr room rest
            { sys with ctrLimitMaxRooms := sys.ctrLimitMaxRooms + 1 }⟩
        · intro hcase
          rw [foldJoin_conns_not_mem mr room rest _ c hcnotrest]
          rcases hcase with hin | hlt
          · have hform : joinOne mr room sys c = sys := by simp [joinOne, hin]
            rw [hform]
            exact hin
          · by_cases hin : room ∈ (sys.conns c).rooms
            · have hform : joinOne mr room sys c = sys := by simp [joinOne, hin]
              rw [hform]
              exact hin
            · have hform : joinOne mr room sys c =
                  { sys with
                    roomsMap := updMap sys.roomsMap room (insertId c (sys.roomsMap room))
                    conns := updStore sys.conns c ((sys.conns c).addRoom room)
                    ctrJoin := sys.ctrJoin + 1 } := by
                simp [joinOne, hin, Nat.not_le_of_lt hlt]
              rw [hform]
              simp only [updStore_eval, if_pos rfl]
              exact HConn.mem_addRoom.2 (Or.inl rfl)
      · have hcrest : c ∈ rest := by
          rcases List.mem_cons.1 hc with he | hm
          · exact absurd he hcx
          · exact hm
        simp only [List.foldl_cons]
        have hconns : (joinOne mr room sys x).conns c = sys.conns c :=
          joinOne_conns_other mr room sys x c hcx
        obtain ⟨ih1, ih2⟩ := ih (joinOne mr room sys x) c hndrest hcrest
        constructor
        · intro hroom hlen
          rw [hconns] at ih1
          obtain ⟨he, hctr⟩ := ih1 hroom hlen
          refine ⟨he, Nat.le_trans ?_ hctr⟩
          exact Nat.succ_le_succ (joinOne_ctr_mono mr room sys x)
        · intro hcase
          rw [hconns] at ih2
          exact ih2 hcase

theorem foldJoin_maxRooms (mr : Nat) (room : String) :
    ∀ (l : List ConnId) (sys : HubSys),
      (l.foldl (joinOne mr room) sys).maxRooms = sys.maxRooms := by
  intro l
  induction l with
  | nil => intro sys; rfl
  | cons x rest ih =>
      intro sys
      simp only [List.foldl_cons]
      rw [ih, joinOne_maxRooms]

theorem foldLeave_maxRooms (room : String) :
    ∀ (l : List ConnId) (sys : HubSys),
      (l.foldl (leaveOne room) sys).maxRooms = sys.maxRooms := by
  intro l
  induction l with
  | nil => intro sys; rfl
  | cons x rest ih =>
      intro sys
      simp only [List.foldl_cons]
      rw [ih, leaveOne_maxRooms]

theorem hubApply_maxRooms (sys : HubSys) (op : HubOp) :
    (hubApply sys op).maxRooms = sys.maxRooms := by
  cases op with
  | register c => exact hubRegister_maxRooms sys c
  | unregister c => exact hubUnregister_maxRooms sys c
  | setID c i => rfl
  | join u room =>
      simp only [hubApply]
      by_cases hcs : (sys.userIndex u).isEmpty
      · simp [hubJoin, hcs]
      · have hform : hubJoin sys u room =
            (sys.userIndex u).foldl (joinOne sys.maxRooms room) sys := by
          simp [hubJoin, hcs]
        rw [hform, foldJoin_maxRooms]
  | leave u room =>
      simp only [hubApply]
      by_cases h1 : (sys.userIndex u).isEmpty
      · simp [hubLeave, h1]
      by_cases h2 : (sys.roomsMap room).isEmpty
      · simp [hubLeave, h1, h2]
      · have hform : hubLeave sys u room =
            (sys.userIndex u).foldl (leaveOne room) sys := by
          simp [hubLeave, h1, h2]
        rw [hform, foldLeave_maxRooms]

theorem hubRun_maxRooms : ∀ (ops : List HubOp) (sys : HubSys),
    (hubRun sys ops).maxRooms = sys.maxRooms := by
  intro ops
  induction ops with
  | nil => intro sys; rfl
  | cons op rest ih =>
      intro sys
      simp only [hubRun]
      rw [ih, hubApply_maxRooms]

theorem hubUnregister_roomsMap (sys : HubSys) (c : ConnId)
    (hcm : c ∈ sys.connections) :
    (hubUnregister sys c).roomsMap = purgeRooms c (sys.conns c).rooms sys.roomsMap := by
  by_cases hu : (sys.conns c).id = "" <;> simp [hubUnregister, hcm, hu]

/-! ## The claims -/

/-- Input of the C1 evaluation: a fresh default connection on which
`Close()` has completed. -/
def c1Conn : ConnState := connClose (newConnect 256)

def c1Msg : Msg := { typ := MsgType.text, data := [104, 105] }

/-- C1.  After `Close()`, both the `<-c.closed` case and the
`c.sendChan <- msg` case of `send`'s `select` are ready (the writer loop
has exited, the buffer has room), so Go's pseudo-random `select` can take
the send case: `SendText` then returns `nil` and the frame IS enqueued on
the outbound queue.  The claim that every send after Close fails with the
"closed" error and never enqueues is therefore violated by the code,
though it is what the method's own doc comment ("returns ... error if
closed") promises. -/
theorem send_after_close_can_enqueue :
    c1Conn.closed = true ∧
    sendReady c1Conn false SendBranch.closedBr = true ∧
    sendReady c1Conn false SendBranch.enqueueBr = true ∧
    connSend c1Conn false c1Msg SendBranch.enqueueBr =
      some (SendOutcome.ok, { c1Conn with queue := [c1Msg] }) := by
  decide

def c2Msg : Msg := { typ := MsgType.text, data := [1] }

def c2Fresh : ConnState := newConnect 2

def c2Queued : ConnState := { c2Fresh with queue := [c2Msg] }

/-- The state after `close(c.closed)` has executed inside `Close`'s
`once.Do` body, before `conn.Close` runs. -/
def c2AfterCloseChan : ConnState := connCloseChan c2Queued

/-- C2.  A frame is enqueued before Close.  Once `close(c.closed)` has
executed, both the `<-c.closed` case and the `msg := <-c.sendChan` case
of `writeLoop`'s `select` are ready; choosing the message case makes the
writer attempt — and, interleaved before `conn.Close`, complete — a
socket write of the queued frame after Close was invoked.  Even after
`Close` has fully returned, the writer can still attempt the write (it
then fails on the closed socket).  The claim that no execution step after
Close attempts a socket write of a queued frame is violated. -/
theorem writer_write_attempt_after_close :
    connSend c2Fresh false c2Msg SendBranch.enqueueBr = some (SendOutcome.ok, c2Queued) ∧
    c2AfterCloseChan.closed = true ∧
    writerReady c2AfterCloseChan false WriterBranch.closedBr = true ∧
    writerReady c2AfterCloseChan false WriterBranch.msgBr = true ∧
    connWriterStep c2AfterCloseChan false false WriterBranch.msgBr =
      some (WriterEv.wroteAttempt c2Msg true,
        { c2AfterCloseChan with queue := [], sentSuccess := 1 }) ∧
    connWriterStep (connClose c2Queued) false false WriterBranch.msgBr =
      some (WriterEv.wroteAttempt c2Msg false,
        { closed := true, sockClosed := true, queue := [], bufSize := 2
          writerExited := true, active := 0
          sentSuccess := 0, sentDropped := 0, sentError := 1 }) := by
  decide

/-- C3 counterexample.  `Register` before `SetID`: the connection is
registered with an empty id, a later `SetID` gives it the non-empty id
"alice", and the hub's user index is never updated — the registered
connection 0 has a non-empty ID but is not a member of
`userIndex["alice"]`. -/
theorem late_setID_leaves_index_stale :
    0 ∈ (hubRun (hubInit 50) [HubOp.register 0, HubOp.setID 0 "alice"]).connections ∧
    ((hubRun (hubInit 50) [HubOp.register 0, HubOp.setID 0 "alice"]).conns 0).id = "alice" ∧
    0 ∉ (hubRun (hubInit 50) [HubOp.register 0, HubOp.setID 0 "alice"]).userIndex "alice" := by
  decide

/-- C3 (amended).  For every sequence of Hub operations and SetID calls
in which `SetID` is only invoked on connections not currently registered
(callers SetID before Register) — with `Register`, `Unregister`, `Join`
and `Leave` unrestricted — the user index is consistent: every
registered connection with a non-empty ID is in `userIndex[ID]`, and
every member of `userIndex[u]` has ID `u` and is registered. -/
theorem userIndex_consistency_setID_unregistered (mr : Nat) (ops : List HubOp)
    (hg : goodSetID (hubInit mr) ops = true) :
    (∀ c ∈ (hubRun (hubInit mr) ops).connections,
        ((hubRun (hubInit mr) ops).conns c).id ≠ "" →
        c ∈ (hubRun (hubInit mr) ops).userIndex ((hubRun (hubInit mr) ops).conns c).id) ∧
    (∀ u c, c ∈ (hubRun (hubInit mr) ops).userIndex u →
        ((hubRun (hubInit mr) ops).conns c).id = u ∧
        c ∈ (hubRun (hubInit mr) ops).connections) := by
  have h := indexInv_run ops (hubInit mr) (indexInv_init mr) hg
  exact ⟨h.reg_indexed, fun u c hc => ⟨h.index_id u c hc, h.index_reg u c hc⟩⟩

/-- C3 witness: a run that calls `SetID` before `Register` and then
joins, unregisters and re-registers the connection — `Register` after
`Unregister` is inside the amended claim's scope. -/
theorem userIndex_consistency_setID_unregistered_witness :
    goodSetID (hubInit 50) [HubOp.setID 0 "u", HubOp.register 0, HubOp.join "u" "a",
        HubOp.unregister 0, HubOp.register 0] = true ∧
    ((∀ c ∈ (hubRun (hubInit 50) [HubOp.setID 0 "u", HubOp.register 0, HubOp.join "u" "a",
          HubOp.unregister 0, HubOp.register 0]).connections,
        ((hubRun (hubInit 50) [HubOp.setID 0 "u", HubOp.register 0, HubOp.join "u" "a",
          HubOp.unregister 0, HubOp.register 0]).conns c).id ≠ "" →
        c ∈ (hubRun (hubInit 50) [HubOp.setID 0 "u", HubOp.register 0, HubOp.join "u" "a",
          HubOp.unregister 0, HubOp.register 0]).userIndex
          ((hubRun (hubInit 50) [HubOp.setID 0 "u", HubOp.register 0, HubOp.join "u" "a",
            HubOp.unregister 0, HubOp.register 0]).conns c).id) ∧
     (∀ u c, c ∈ (hubRun (hubInit 50) [HubOp.setID 0 "u", HubOp.register 0, HubOp.join "u" "a",
          HubOp.unregister 0, HubOp.register 0]).userIndex u →
        ((hubRun (hubInit 50) [HubOp.setID 0 "u", HubOp.register 0, HubOp.join "u" "a",
          HubOp.unregister 0, HubOp.register 0]).conns c).id = u ∧
        c ∈ (hubRun (hubInit 50) [HubOp.setID 0 "u", HubOp.register 0, HubOp.join "u" "a",
          HubOp.unregister 0, HubOp.register 0]).connections)) :=
  ⟨by decide, userIndex_consistency_setID_unregistered 50
    [HubOp.setID 0 "u", HubOp.register 0, HubOp.join "u" "a",
      HubOp.unregister 0, HubOp.register 0] (by decide)⟩

/-- C4.  (a) Along every operation sequence from a fresh hub, no
connection's joined-rooms set ever exceeds `maxRoomsPerConnect`.
(b) A `Join` for a user skips a connection that is at the limit (its
state is unchanged and the "max_rooms" limit-exceeded counter is
bumped), and (c) still applies to every connection of the user that is
under the limit. -/
theorem join_respects_max_rooms :
    (∀ (mr : Nat) (ops : List HubOp) (x : ConnId),
        ((hubRun (hubInit mr) ops).conns x).rooms.length ≤ mr) ∧
    (∀ (sys : HubSys) (u room : String) (c : ConnId),
        (sys.userIndex u).Nodup → c ∈ sys.userIndex u →
        room ∉ (sys.conns c).rooms → sys.maxRooms ≤ (sys.conns c).rooms.length →
        (hubJoin sys u room).conns c = sys.conns c ∧
        sys.ctrLimitMaxRooms + 1 ≤ (hubJoin sys u room).ctrLimitMaxRooms) ∧
    (∀ (sys : HubSys) (u room : String) (c : ConnId),
        (sys.userIndex u).Nodup → c ∈ sys.userIndex u →
        (sys.conns c).rooms.length < sys.maxRooms →
        room ∈ ((hubJoin sys u room).conns c).rooms) := by
  refine ⟨?_, ?_, ?_⟩
  · intro mr ops x
    have hb : RoomsBound (hubRun (hubInit mr) ops) :=
      roomsBound_run ops (hubInit mr) (fun _ => Nat.zero_le _)
    have hmr : (hubRun (hubInit mr) ops).maxRooms = mr := hubRun_maxRooms ops (hubInit mr)
    have hx := hb x
    rw [hmr] at hx
    exact hx
  · intro sys u room c hnd hc hroom hlen
    have hne : ¬ (sys.userIndex u).isEmpty := by
      intro he
      rw [List.isEmpty_iff.1 he] at hc
      exact List.not_mem_nil c hc
    have hform : hubJoin sys u room =
        (sys.userIndex u).foldl (joinOne sys.maxRooms room) sys := by
      simp [hubJoin, hne]
    rw [hform]
    exact ((foldJoin_spec sys.maxRooms room (sys.userIndex u) sys c hnd hc).1) hroom hlen
  · intro sys u room c hnd hc hlt
    have hne : ¬ (sys.userIndex u).isEmpty := by
      intro he
      rw [List.isEmpty_iff.1 he] at hc
      exact List.not_mem_nil c hc
    have hform : hubJoin sys u room =
        (sys.userIndex u).foldl (joinOne sys.maxRooms room) sys := by
      simp [hubJoin, hne]
    rw [hform]
    exact ((foldJoin_spec sys.maxRooms room (sys.userIndex u) sys c hnd hc).2) (Or.inr hlt)

/-- C4 witness: user "u" has connection 0 at the limit (1 room of max 1)
and connection 1 under it; `Join` skips 0 and bumps the counter, and adds
room "r" to 1. -/
def sysC4 : HubSys :=
  { conns := fun x => if x = 0 then { id := "u", rooms := ["a"] } else { id := "u", rooms := [] }
    connections := [0, 1]
    userIndex := fun s => if s = "u" then [0, 1] else []
    roomsMap := fun r => if r = "a" then [0] else []
    maxRooms := 1, ctrLimitMaxRooms := 0, ctrJoin := 0, ctrLeave := 0 }

theorem join_respects_max_rooms_witness :
    ((hubJoin sysC4 "u" "r").conns 0 = sysC4.conns 0 ∧
      sysC4.ctrLimitMaxRooms + 1 ≤ (hubJoin sysC4 "u" "r").ctrLimitMaxRooms) ∧
    "r" ∈ ((hubJoin sysC4 "u" "r").conns 1).rooms :=
  ⟨join_respects_max_rooms.2.1 sysC4 "u" "r" 0 (by decide) (by decide) (by decide) (by decide),
   join_respects_max_rooms.2.2 sysC4 "u" "r" 1 (by decide) (by decide) (by decide)⟩

/-- C5 counterexample.  Register a connection for user "u", join room
"a", then `Unregister`: the hub's room map is purged but the
connection's own joined-rooms set still contains "a", so the claimed
equivalence `c ∈ rooms[r] ⇔ r ∈ c.rooms` fails for connection 0 (the
source comments out `c.removeRoom(room)` in `Unregister`). -/
theorem unregister_leaves_stale_conn_rooms :
    "a" ∈ ((hubRun (hubInit 50)
        [HubOp.setID 0 "u", HubOp.register 0, HubOp.join "u" "a",
          HubOp.unregister 0]).conns 0).rooms ∧
    0 ∉ (hubRun (hubInit 50)
        [HubOp.setID 0 "u", HubOp.register 0, HubOp.join "u" "a",
          HubOp.unregister 0]).roomsMap "a" := by
  decide

/-- C5 (amended).  Under the `goodOps` discipline, room membership is
symmetric for every REGISTERED connection (`c ∈ rooms[r] ⇔ r ∈ c.rooms`),
every room-map entry references a registered connection, and `Unregister`
fully purges the connection from every room map (using the connection's
own joined-rooms set as the reverse index); the equivalence does not
extend to unregistered connections, whose own rooms set is left
intact. -/
theorem room_symmetry_good_ops (mr : Nat) (ops : List HubOp)
    (hg : goodOps (hubInit mr) ops = true) :
    (∀ c ∈ (hubRun (hubInit mr) ops).connections, ∀ r,
        (c ∈ (hubRun (hubInit mr) ops).roomsMap r ↔
          r ∈ ((hubRun (hubInit mr) ops).conns c).rooms)) ∧
    (∀ r c, c ∈ (hubRun (hubInit mr) ops).roomsMap r →
        c ∈ (hubRun (hubInit mr) ops).connections) ∧
    (∀ c, c ∈ (hubRun (hubInit mr) ops).connections → ∀ r,
        c ∉ (hubUnregister (hubRun (hubInit mr) ops) c).roomsMap r) := by
  have h := hubInv_run ops (hubInit mr) (hubInv_init mr) hg
  refine ⟨h.room_sym, h.room_reg, ?_⟩
  intro c hcm r hmem
  rw [hubUnregister_roomsMap _ _ hcm, purgeRooms_eval] at hmem
  by_cases hr : r ∈ ((hubRun (hubInit mr) ops).conns c).rooms
  · rw [if_pos hr] at hmem
    exact (mem_filter_ne.1 hmem).2 rfl
  · rw [if_neg hr] at hmem
    exact hr ((h.room_sym c hcm r).1 hmem)

/-- C5 witness: register, join, and check symmetry plus the purge. -/
theorem room_symmetry_good_ops_witness :
    goodOps (hubInit 50) [HubOp.setID 0 "u", HubOp.register 0, HubOp.join "u" "a"] = true ∧
    ((∀ c ∈ (hubRun (hubInit 50)
          [HubOp.setID 0 "u", HubOp.register 0, HubOp.join "u" "a"]).connections, ∀ r,
        (c ∈ (hubRun (hubInit 50)
            [HubOp.setID 0 "u", HubOp.register 0, HubOp.join "u" "a"]).roomsMap r ↔
          r ∈ ((hubRun (hubInit 50)
            [HubOp.setID 0 "u", HubOp.register 0, HubOp.join "u" "a"]).conns c).rooms)) ∧
     (∀ r c, c ∈ (hubRun (hubInit 50)
          [HubOp.setID 0 "u", HubOp.register 0, HubOp.join "u" "a"]).roomsMap r →
        c ∈ (hubRun (hubInit 50)
          [HubOp.setID 0 "u", HubOp.register 0, HubOp.join "u" "a"]).connections) ∧
     (∀ c, c ∈ (hubRun (hubInit 50)
          [HubOp.setID 0 "u", HubOp.register 0, HubOp.join "u" "a"]).connections → ∀ r,
        c ∉ (hubUnregister (hubRun (hubInit 50)
          [HubOp.setID 0 "u", HubOp.register 0, HubOp.join "u" "a"]) c).roomsMap r)) :=
  ⟨by decide, room_symmetry_good_ops 50
    [HubOp.setID 0 "u", HubOp.register 0, HubOp.join "u" "a"] (by decide)⟩

/-- C6.  With a broker configured, the publish path of `Broadcast`,
`SendTo`, `Kick` and `BroadcastToRoom` consists of exactly the broker
publish of the corresponding envelope — no local delivery happens on that
path, and the effects do not depend on whether the publish fails (the
error is discarded).  Local fan-out happens exactly once per envelope, in
the broker-subscription handler. -/
theorem broker_publish_no_local_fanout (sys : HubSys) (pf : Bool)
    (u room : String) (msg : List Nat) :
    hubBroadcastEffects sys true pf msg = [Effect.publish (HubMsg.broadcast msg)] ∧
    hubBroadcastEffects sys true true msg = hubBroadcastEffects sys true false msg ∧
    (hubBroadcastEffects sys true pf msg).filter (fun e => e.isLocalDelivery) = [] ∧
    hubSendToEffects sys true pf u msg = [Effect.publish (HubMsg.unicast u msg)] ∧
    (hubSendToEffects sys true pf u msg).filter (fun e => e.isLocalDelivery) = [] ∧
    hubKickEffects sys true pf u = [Effect.publish (HubMsg.kick u)] ∧
    (hubKickEffects sys true pf u).filter (fun e => e.isLocalDelivery) = [] ∧
    hubRoomCastEffects sys true pf room msg = [Effect.publish (HubMsg.roomCast room msg)] ∧
    (hubRoomCastEffects sys true pf room msg).filter (fun e => e.isLocalDelivery) = [] ∧
    handleBrokerMessage sys (HubMsg.broadcast msg) = broadcastLocalEffects sys msg ∧
    handleBrokerMessage sys (HubMsg.unicast u msg) = sendToLocalEffects sys u msg ∧
    handleBrokerMessage sys (HubMsg.kick u) = kickLocalEffects sys u ∧
    handleBrokerMessage sys (HubMsg.roomCast room msg) = roomCastLocalEffects sys room msg :=
  ⟨rfl, rfl, rfl, rfl, rfl, rfl, rfl, rfl, rfl, rfl, rfl, rfl, rfl⟩

/-- C7.  After `Release`, every `Submit` — in blocking or non-blocking
mode — returns the "closed" error, and no submit along any later
operation trace ever succeeds. -/
theorem submit_after_release_closed (p : PoolState) (ops : List PoolOp) (t : Nat) :
    poolSubmit (poolRelease p) t = (SubmitRes.errClosed, poolRelease p) ∧
    (poolRun (poolRelease p) ops).2.all (fun r => r = SubmitRes.errClosed) = true := by
  constructor
  · exact poolSubmit_closed _ t (poolRelease_closed p)
  · simp only [List.all_eq_true, decide_eq_true_eq]
    intro r hr
    exact poolRun_submits_errClosed ops _ (poolRelease_closed p) r hr

/-- C8.  `Connect` returns the first dial's result: a first-dial failure
is returned to the caller after exactly one dial (no reconnect — the loop
exits); after a successful first dial, later failures ARE redialled, up
to `maxReconnectAttempts` (-1 = infinite): with the infinite policy a
schedule of two post-success failures produces three dials, while with
`maxReconnectAttempts = 0` the first post-success failure stops the loop
after two dials. -/
theorem connect_first_dial_not_retried :
    (∀ (m : Int) (rest : List DialEv),
        clientConnect m (DialEv.fail :: rest) = (some false, 1)) ∧
    (∀ k : Nat, clientConnect (-1) [DialEv.ok k, DialEv.fail, DialEv.fail] = (some true, 3)) ∧
    (∀ k : Nat, clientConnect 0 [DialEv.ok k, DialEv.fail, DialEv.fail] = (some true, 2)) := by
  refine ⟨?_, ?_, ?_⟩
  · intro m rest
    rfl
  · intro k
    simp [clientConnect, loopAux]
  · intro k
    simp [clientConnect, loopAux]

/-- C9.  `clientEntity.Close` has no `sync.Once` guard: the first call
succeeds, but a second call on the same client closes an already-closed
channel and faults (Go runtime panic) — unlike `connectEntity.Close`,
which is idempotent. -/
theorem client_close_not_idempotent (st : ClientState) (h : st.closedChan = false) :
    clientClose st =
      Except.ok { st with closedChan := true, conn := st.conn.map connClose } ∧
    clientClose { st with closedChan := true, conn := st.conn.map connClose } =
      Except.error "close of closed channel" ∧
    (∀ c : ConnState, connClose (connClose c) = connClose c) := by
  refine ⟨by simp [clientClose, h], by simp [clientClose], ?_⟩
  intro c
  by_cases hc : c.closed
  · simp [connClose, hc]
  · simp [connClose, hc, connCloseSock, connCloseChan]

/-- C9 witness at a freshly constructed client. -/
theorem client_close_not_idempotent_witness :
    (({ closedChan := false, conn := none } : ClientState).closedChan = false) ∧
    (clientClose { closedChan := false, conn := none } =
        Except.ok { closedChan := true, conn := none } ∧
      clientClose { closedChan := true, conn := none } =
        Except.error "close of closed channel" ∧
      (∀ c : ConnState, connClose (connClose c) = connClose c)) :=
  ⟨rfl, client_close_not_idempotent { closedChan := false, conn := none } rfl⟩

/-- C10.  When `json.Marshal` fails, `SendJSON` returns the marshal error
before building a frame: the connection state — queue, closed flag, and
all `msgSent` counters — is returned unchanged, whatever select branch
the (never-reached) send would have taken. -/
theorem sendJSON_marshal_error_no_effect (c : ConnState) (ctxDone : Bool)
    (e : String) (br : SendBranch) :
    connSendJSON c ctxDone (Except.error e) br = some (JsonRes.marshalErr e, c) := rfl

end Micro
